import Mathlib

/-!
# Verification of the Calculator.Den expression state machine and evaluator

Shallow embedding of `src/script.js`: the expression builder (appendNumber,
appendOperator, backspace, clearDisplay, clearAll, calculate) and the pure
expression evaluator (`evaluateExpression`), together with theorems settling
the specification claims.

JS numbers are modelled as exact rationals (`ℚ`); the floating-point specifics
of IEEE-754 arithmetic and of `Number.prototype.toString` rendering are not
modelled, and no theorem below depends on them.
-/

set_option allowUnsafeReducibility true

attribute [semireducible] Rat.add Rat.sub Rat.mul Rat.inv

namespace CalculatorDen

/-- A token is an operator iff it exactly matches one of the four operator
characters (src/script.js line 139: `['+', '-', '*', '/'].includes(token)`). -/
def isOperator (t : String) : Bool :=
  t = "+" || t = "-" || t = "*" || t = "/"

/-- Longest prefix of decimal digit characters, together with the rest. -/
def takeDigits : List Char → List Char × List Char
  | [] => ([], [])
  | c :: cs =>
    if c.isDigit then
      let (ds, rest) := takeDigits cs
      (c :: ds, rest)
    else ([], c :: cs)

/-- Numeric value of a list of decimal digit characters, most significant first. -/
def digitsToNat (ds : List Char) : ℕ :=
  ds.foldl (fun a c => 10 * a + (c.toNat - 48)) 0

/-- Model of the JS builtin `parseFloat`, restricted to plain decimal literals
`[+-]? digits [. digits]?` (prefix-parsed, trailing junk ignored); exponent
notation, `Infinity` and leading whitespace are not modelled, as no calculator
token in the claims uses them.  `none` stands for `NaN`.  The value
`intPart + fracPart / 10 ^ fracLen` is built with `mkRat` so that it reduces
inside the kernel. -/
def parseFloat (s : String) : Option ℚ :=
  let (neg, cs) : Bool × List Char :=
    match s.data with
    | c :: r => if c = '-' then (true, r) else if c = '+' then (false, r) else (false, c :: r)
    | [] => (false, [])
  let (ip, cs') := takeDigits cs
  let fp : List Char :=
    match cs' with
    | c :: r => if c = '.' then (takeDigits r).1 else []
    | [] => []
  if ip.isEmpty && fp.isEmpty then none
  else
    let mag : ℚ := mkRat (digitsToNat ip * 10 ^ fp.length + digitsToNat fp) (10 ^ fp.length)
    some (if neg then -mag else mag)

/-- The evaluator's failure modes (the `throw new Error(...)` sites of
`evaluateExpression` and `applyOperator`). -/
inductive EvalError where
  | invalidNumber
  | invalidExpression
  | divideByZero
  | invalidOperation
deriving DecidableEq, Repr

/-- Decidable equality for evaluator outcomes, so that concrete runs of the
evaluator can be checked by `decide`. -/
instance {ε α : Type} [DecidableEq ε] [DecidableEq α] : DecidableEq (Except ε α) := by
  intro x y
  cases x <;> cases y
  case error.error e f =>
    exact if h : e = f then .isTrue (by rw [h]) else .isFalse (by simp [h])
  case ok.ok a b =>
    exact if h : a = b then .isTrue (by rw [h]) else .isFalse (by simp [h])
  case error.ok e a => exact .isFalse (by simp)
  case ok.error a e => exact .isFalse (by simp)

/-- The `error.message` text committed to the display by `calculate`'s catch. -/
def errorMessage : EvalError → String
  | .invalidNumber => "Invalid number"
  | .invalidExpression => "Invalid expression"
  | .divideByZero => "Cannot divide by zero"
  | .invalidOperation => "Invalid operation"

/-- The token-classification loop of `evaluateExpression` (lines 137-146):
operators are collected in order, every other token goes through `parseFloat`,
and a `NaN` parse aborts with `Invalid number`. -/
def parseTokens : List String → Except EvalError (List ℚ × List String)
  | [] => .ok ([], [])
  | t :: ts =>
    if isOperator t then do
      let (ns, os) ← parseTokens ts
      .ok (ns, t :: os)
    else
      match parseFloat t with
      | none => .error .invalidNumber
      | some v => do
        let (ns, os) ← parseTokens ts
        .ok (v :: ns, os)

/-- The precedence table `{ '+': 1, '-': 1, '*': 2, '/': 2 }` (line 157);
`none` models the `undefined` lookup for any other string. -/
def precedence (op : String) : Option ℕ :=
  if op = "+" then some 1
  else if op = "-" then some 1
  else if op = "*" then some 2
  else if op = "/" then some 2
  else none

/-- `applyOperator` (lines 158-168): the four arithmetic cases, a guarded
division, and the `Invalid operation` default. -/
def applyOperator (op : String) (a b : ℚ) : Except EvalError ℚ :=
  if op = "+" then .ok (a + b)
  else if op = "-" then .ok (a - b)
  else if op = "*" then .ok (a * b)
  else if op = "/" then
    if b = 0 then .error .divideByZero else .ok (a / b)
  else .error .invalidOperation

/-- The first (high-precedence) pass of `evaluateExpression` (lines 170-180):
walking the operator list left to right, a `*`/`/` at the cursor combines the
two numbers at the cursor in place, anything else advances the cursor.  The
two final equations are unreachable whenever the numbers outnumber the
operators (the arity guard at line 154 ensures this and each step preserves
it); JS would read `undefined` there and propagate `NaN`. -/
def highPass : List ℚ → List String → Except EvalError (List ℚ × List String)
  | ns, [] => .ok (ns, [])
  | n :: m :: rest, op :: ops =>
    if precedence op = some 2 then do
      let v ← applyOperator op n m
      highPass (v :: rest) ops
    else do
      let (ns', ops') ← highPass (m :: rest) ops
      .ok (n :: ns', op :: ops')
  | [_], _ :: _ => .error .invalidExpression
  | [], _ :: _ => .error .invalidExpression

/-- The second pass (lines 183-186): fold the surviving operators over the
surviving numbers, starting from the first number, pairing the i-th operator
with the (i+1)-th number. -/
def foldLowGo (acc : ℚ) : List ℚ → List String → Except EvalError ℚ
  | _, [] => .ok acc
  | m :: ns, op :: ops => do
    let v ← applyOperator op acc m
    foldLowGo v ns ops
  | [], _ :: _ => .error .invalidExpression

/-- `result = numbers[0]` followed by the low-precedence fold.  The empty-list
equation is unreachable after the arity guard. -/
def foldLow : List ℚ → List String → Except EvalError ℚ
  | n :: ns, ops => foldLowGo n ns ops
  | [], _ => .error .invalidExpression

/-- `evaluateExpression` (lines 131-189): classify the tokens, return a lone
number directly, reject when the numbers do not outnumber the operators,
then run the two reduction passes. -/
def evaluateExpression (expr : List String) : Except EvalError ℚ := do
  let (numbers, operators) ← parseTokens expr
  if numbers.length = 1 ∧ operators.length = 0 then
    return numbers.headD 0
  else if numbers.length ≤ operators.length then
    .error .invalidExpression
  else do
    let (ns, ops) ← highPass numbers operators
    foldLow ns ops

/-! ## Well-formed alternating sequences and the specification-level evaluator -/

/-- Token list of an alternating expression `n0 op1 n1 op2 n2 …`: a head
number token followed by (operator, number-token) pairs. -/
def tokensOf : String → List (String × String) → List String
  | t0, [] => [t0]
  | t0, (o, n) :: rest => t0 :: o :: tokensOf n rest

/-- Pointwise relation between an alternating expression's (operator, number
token) pairs and their parsed (operator, value) pairs: identical genuine
operators, and each number token parsing to the paired rational. -/
def tokVals : List (String × String) → List (String × ℚ) → Bool
  | [], [] => true
  | tp :: tps, vp :: vps =>
    tp.1 == vp.1 && isOperator vp.1 && (parseFloat tp.2 == some vp.2) && tokVals tps vps
  | _, _ => false

/-- Stated from the spec's words (§4.2, §8): collapse every `*`/`/`
application left-to-right in encounter order, leaving the `+`/`-` skeleton. -/
def collapseHighSpec (a : ℚ) : List (String × ℚ) → Except EvalError (ℚ × List (String × ℚ))
  | [] => .ok (a, [])
  | (op, b) :: rest =>
    if op = "*" then collapseHighSpec (a * b) rest
    else if op = "/" then
      if b = 0 then .error .divideByZero else collapseHighSpec (a / b) rest
    else do
      let (c, tail) ← collapseHighSpec b rest
      .ok (a, (op, c) :: tail)

/-- Stated from the spec's words: fold the remaining `+`/`-` left-to-right
starting from the first remaining number. -/
def foldLowSpec (a : ℚ) : List (String × ℚ) → Except EvalError ℚ
  | [] => .ok a
  | (op, b) :: rest =>
    if op = "+" then foldLowSpec (a + b) rest
    else if op = "-" then foldLowSpec (a - b) rest
    else .error .invalidOperation

/-- The spec's description of evaluation: collapse `*`/`/` first, then fold
`+`/`-` left-to-right. -/
def specPrecedenceEval (a : ℚ) (ps : List (String × ℚ)) : Except EvalError ℚ := do
  let (c, tail) ← collapseHighSpec a ps
  foldLowSpec c tail

/-! ## Bridge lemmas between the code evaluator and the spec evaluator -/

theorem parseFloat_of_isOperator {t : String} (h : isOperator t = true) :
    parseFloat t = none := by
  have h4 : ((t = "+" ∨ t = "-") ∨ t = "*") ∨ t = "/" := by
    simpa [isOperator] using h
  rcases h4 with ((h | h) | h) | h <;> subst h <;> decide

theorem isOperator_of_parseFloat {t : String} {v : ℚ} (h : parseFloat t = some v) :
    isOperator t = false := by
  cases hop : isOperator t with
  | false => rfl
  | true => rw [parseFloat_of_isOperator hop] at h; cases h

theorem tokVals_ops : ∀ {tps : List (String × String)} {vps : List (String × ℚ)},
    tokVals tps vps = true → ∀ vp ∈ vps, isOperator vp.1 = true := by
  intro tps
  induction tps with
  | nil =>
    intro vps hv vp hm
    cases vps with
    | nil => cases hm
    | cons _ _ => simp [tokVals] at hv
  | cons tp tps ih =>
    intro vps hv vp hm
    cases vps with
    | nil => simp [tokVals] at hv
    | cons vq vps =>
      simp only [tokVals, Bool.and_eq_true, beq_iff_eq] at hv
      rcases List.mem_cons.mp hm with rfl | hm
      · exact hv.1.1.2
      · exact ih hv.2 vp hm

theorem parseTokens_tokensOf : ∀ (tps : List (String × String)) (vps : List (String × ℚ))
    (t0 : String) (v0 : ℚ), parseFloat t0 = some v0 → tokVals tps vps = true →
    parseTokens (tokensOf t0 tps) = .ok (v0 :: vps.map Prod.snd, vps.map Prod.fst) := by
  intro tps
  induction tps with
  | nil =>
    intro vps t0 v0 h0 hv
    cases vps with
    | nil =>
      simp [tokensOf, parseTokens, isOperator_of_parseFloat h0, h0, Bind.bind, Except.bind]
    | cons _ _ => simp [tokVals] at hv
  | cons tp tps ih =>
    intro vps t0 v0 h0 hv
    cases vps with
    | nil => simp [tokVals] at hv
    | cons vp vps =>
      obtain ⟨o, n⟩ := tp
      obtain ⟨o', w⟩ := vp
      simp only [tokVals, Bool.and_eq_true, beq_iff_eq] at hv
      obtain ⟨⟨⟨ho, hop⟩, hn⟩, hrest⟩ := hv
      subst ho
      simp [tokensOf, parseTokens, isOperator_of_parseFloat h0, h0, hop,
        ih vps n w hn hrest, Bind.bind, Except.bind]

theorem highPass_collapse : ∀ (vps : List (String × ℚ)) (a : ℚ),
    (∀ vp ∈ vps, isOperator vp.1 = true) →
    highPass (a :: vps.map Prod.snd) (vps.map Prod.fst) =
      Except.map (fun ct => (ct.1 :: ct.2.map Prod.snd, ct.2.map Prod.fst))
        (collapseHighSpec a vps) := by
  intro vps
  induction vps with
  | nil =>
    intro a _
    simp [highPass, collapseHighSpec, Except.map]
  | cons vp vps ih =>
    intro a hops
    obtain ⟨o, b⟩ := vp
    have ho : isOperator o = true := hops (o, b) (List.mem_cons_self _ _)
    have hrest : ∀ vq ∈ vps, isOperator vq.1 = true :=
      fun vq h => hops vq (List.mem_cons_of_mem _ h)
    have h4 : ((o = "+" ∨ o = "-") ∨ o = "*") ∨ o = "/" := by simpa [isOperator] using ho
    rcases h4 with ((rfl | rfl) | rfl) | rfl
    · cases hX : collapseHighSpec b vps with
      | error e =>
        have := ih b hrest
        rw [hX] at this
        simp [highPass, precedence, collapseHighSpec, this, hX,
          Except.map, Bind.bind, Except.bind]
      | ok ct =>
        obtain ⟨c, tail⟩ := ct
        have := ih b hrest
        rw [hX] at this
        simp [highPass, precedence, collapseHighSpec, this, hX,
          Except.map, Bind.bind, Except.bind]
    · cases hX : collapseHighSpec b vps with
      | error e =>
        have := ih b hrest
        rw [hX] at this
        simp [highPass, precedence, collapseHighSpec, this, hX,
          Except.map, Bind.bind, Except.bind]
      | ok ct =>
        obtain ⟨c, tail⟩ := ct
        have := ih b hrest
        rw [hX] at this
        simp [highPass, precedence, collapseHighSpec, this, hX,
          Except.map, Bind.bind, Except.bind]
    · simp [highPass, precedence, collapseHighSpec, applyOperator,
        ih (a * b) hrest, Bind.bind, Except.bind]
    · by_cases hb : b = 0
      · subst hb
        simp [highPass, precedence, collapseHighSpec, applyOperator,
          Except.map, Bind.bind, Except.bind]
      · simp [highPass, precedence, collapseHighSpec, applyOperator, hb,
          ih (a / b) hrest, Bind.bind, Except.bind]

theorem collapse_tail_low : ∀ (vps : List (String × ℚ)) (a c : ℚ)
    (tail : List (String × ℚ)), (∀ vp ∈ vps, isOperator vp.1 = true) →
    collapseHighSpec a vps = .ok (c, tail) →
    ∀ p ∈ tail, p.1 = "+" ∨ p.1 = "-" := by
  intro vps
  induction vps with
  | nil =>
    intro a c tail _ h p hp
    simp only [collapseHighSpec, Except.ok.injEq, Prod.mk.injEq] at h
    rw [← h.2] at hp
    cases hp
  | cons vp vps ih =>
    intro a c tail hops h p hp
    obtain ⟨o, b⟩ := vp
    have ho : isOperator o = true := hops (o, b) (List.mem_cons_self _ _)
    have hrest : ∀ vq ∈ vps, isOperator vq.1 = true :=
      fun vq hq => hops vq (List.mem_cons_of_mem _ hq)
    have h4 : ((o = "+" ∨ o = "-") ∨ o = "*") ∨ o = "/" := by simpa [isOperator] using ho
    rcases h4 with ((rfl | rfl) | rfl) | rfl
    · rw [show collapseHighSpec a (("+", b) :: vps) =
          (do
            let ct ← collapseHighSpec b vps
            .ok (a, ("+", ct.1) :: ct.2)) by simp [collapseHighSpec]] at h
      cases hX : collapseHighSpec b vps with
      | error e => rw [hX] at h; cases h
      | ok ct =>
        obtain ⟨c', tail'⟩ := ct
        rw [hX] at h
        simp only [Bind.bind, Except.bind, Except.ok.injEq, Prod.mk.injEq] at h
        rw [← h.2] at hp
        rcases List.mem_cons.mp hp with rfl | hp'
        · exact Or.inl rfl
        · exact ih b c' tail' hrest hX p hp'
    · rw [show collapseHighSpec a (("-", b) :: vps) =
          (do
            let ct ← collapseHighSpec b vps
            .ok (a, ("-", ct.1) :: ct.2)) by simp [collapseHighSpec]] at h
      cases hX : collapseHighSpec b vps with
      | error e => rw [hX] at h; cases h
      | ok ct =>
        obtain ⟨c', tail'⟩ := ct
        rw [hX] at h
        simp only [Bind.bind, Except.bind, Except.ok.injEq, Prod.mk.injEq] at h
        rw [← h.2] at hp
        rcases List.mem_cons.mp hp with rfl | hp'
        · exact Or.inr rfl
        · exact ih b c' tail' hrest hX p hp'
    · rw [show collapseHighSpec a (("*", b) :: vps) =
          collapseHighSpec (a * b) vps by simp [collapseHighSpec]] at h
      exact ih (a * b) c tail hrest h p hp
    · by_cases hb : b = 0
      · subst hb
        rw [show collapseHighSpec a (("/", (0 : ℚ)) :: vps) =
            .error .divideByZero by simp [collapseHighSpec]] at h
        cases h
      · rw [show collapseHighSpec a (("/", b) :: vps) =
            collapseHighSpec (a / b) vps by simp [collapseHighSpec, hb]] at h
        exact ih (a / b) c tail hrest h p hp

theorem foldLowGo_spec : ∀ (tail : List (String × ℚ)) (c : ℚ),
    (∀ p ∈ tail, p.1 = "+" ∨ p.1 = "-") →
    foldLowGo c (tail.map Prod.snd) (tail.map Prod.fst) = foldLowSpec c tail := by
  intro tail
  induction tail with
  | nil => intro c _; simp [foldLowGo, foldLowSpec]
  | cons p tail ih =>
    intro c hlow
    obtain ⟨o, b⟩ := p
    have ho : o = "+" ∨ o = "-" := hlow (o, b) (List.mem_cons_self _ _)
    have hrest : ∀ q ∈ tail, q.1 = "+" ∨ q.1 = "-" :=
      fun q hq => hlow q (List.mem_cons_of_mem _ hq)
    rcases ho with rfl | rfl
    · simp [foldLowGo, foldLowSpec, applyOperator, ih (c + b) hrest,
        Bind.bind, Except.bind]
    · simp [foldLowGo, foldLowSpec, applyOperator, ih (c - b) hrest,
        Bind.bind, Except.bind]

/-- The code evaluator agrees with the spec-level collapse-then-fold evaluator
on every well-formed alternating token sequence. -/
theorem eval_eq_spec (t0 : String) (v0 : ℚ) (tps : List (String × String))
    (vps : List (String × ℚ)) (h0 : parseFloat t0 = some v0)
    (hv : tokVals tps vps = true) :
    evaluateExpression (tokensOf t0 tps) = specPrecedenceEval v0 vps := by
  have hparse := parseTokens_tokensOf tps vps t0 v0 h0 hv
  cases vps with
  | nil =>
    cases tps with
    | cons _ _ => simp [tokVals] at hv
    | nil =>
      simp [evaluateExpression, hparse, specPrecedenceEval, collapseHighSpec,
        foldLowSpec, Bind.bind, Except.bind, Pure.pure, Except.pure]
  | cons vp vps' =>
    have hops : ∀ q ∈ (vp :: vps'), isOperator q.1 = true := tokVals_ops hv
    have hhp := highPass_collapse (vp :: vps') v0 hops
    cases hX : collapseHighSpec v0 (vp :: vps') with
    | error e =>
      rw [hX] at hhp
      simp only [List.map_cons, Except.map] at hhp
      simp [evaluateExpression, hparse, Bind.bind, Except.bind, hhp, Except.map,
        specPrecedenceEval, hX, Pure.pure, Except.pure]
    | ok ct =>
      obtain ⟨c, tail⟩ := ct
      rw [hX] at hhp
      simp only [List.map_cons, Except.map] at hhp
      have hlow := collapse_tail_low (vp :: vps') v0 c tail hops hX
      simp [evaluateExpression, hparse, Bind.bind, Except.bind, hhp, Except.map,
        specPrecedenceEval, hX, foldLow, foldLowGo_spec tail c hlow,
        Pure.pure, Except.pure]

theorem collapse_div_zero : ∀ (vps : List (String × ℚ)) (a : ℚ),
    (∀ vp ∈ vps, isOperator vp.1 = true) → ("/", (0 : ℚ)) ∈ vps →
    collapseHighSpec a vps = .error .divideByZero := by
  intro vps
  induction vps with
  | nil => intro a _ hz; cases hz
  | cons vp vps ih =>
    intro a hops hz
    obtain ⟨o, b⟩ := vp
    have ho : isOperator o = true := hops (o, b) (List.mem_cons_self _ _)
    have hrest : ∀ vq ∈ vps, isOperator vq.1 = true :=
      fun vq hq => hops vq (List.mem_cons_of_mem _ hq)
    rcases List.mem_cons.mp hz with heq | hz'
    · obtain ⟨ho', hb⟩ := Prod.mk.injEq .. ▸ heq.symm
      subst ho'
      subst hb
      simp [collapseHighSpec]
    · have h4 : ((o = "+" ∨ o = "-") ∨ o = "*") ∨ o = "/" := by simpa [isOperator] using ho
      rcases h4 with ((rfl | rfl) | rfl) | rfl
      · simp [collapseHighSpec, ih b hrest hz', Bind.bind, Except.bind]
      · simp [collapseHighSpec, ih b hrest hz', Bind.bind, Except.bind]
      · simp [collapseHighSpec, ih (a * b) hrest hz']
      · by_cases hb : b = 0
        · subst hb; simp [collapseHighSpec]
        · simp [collapseHighSpec, hb, ih (a / b) hrest hz']

/-! ## Claim theorems: evaluator -/

/-- C3: for every well-formed alternating token sequence, the evaluator's
result equals the spec-level result of first collapsing every `*`/`/`
application left-to-right in encounter order and then folding the remaining
`+`/`-` left-to-right from the first remaining number. -/
theorem evaluator_two_tier_precedence (t0 : String) (v0 : ℚ)
    (tps : List (String × String)) (vps : List (String × ℚ))
    (h0 : parseFloat t0 = some v0) (hv : tokVals tps vps = true) :
    evaluateExpression (tokensOf t0 tps) = specPrecedenceEval v0 vps :=
  eval_eq_spec t0 v0 tps vps h0 hv

/-- Witness for C3: `2 + 3 * 4` agrees with the spec evaluator and computes
`14`; `10 - 4 / 2` computes `8`. -/
theorem evaluator_two_tier_precedence_witness :
    evaluateExpression (tokensOf "2" [("+", "3"), ("*", "4")]) =
      specPrecedenceEval 2 [("+", (3 : ℚ)), ("*", 4)] ∧
    specPrecedenceEval 2 [("+", (3 : ℚ)), ("*", 4)] = .ok 14 ∧
    evaluateExpression ["10", "-", "4", "/", "2"] = .ok 8 :=
  ⟨evaluator_two_tier_precedence "2" 2 [("+", "3"), ("*", "4")]
      [("+", (3 : ℚ)), ("*", 4)] (by decide) (by decide),
    by decide, by decide⟩

/-- C4: in a well-formed alternating token sequence, if some `/` operator's
right operand is zero (the number token following it parses to `0`, which is
the value it is applied to, since the first pass only ever rewrites values to
the left of the cursor), evaluation fails with `DivideByZero`, regardless of
the other operators present. -/
theorem divide_by_zero_anywhere (t0 : String) (v0 : ℚ)
    (tps : List (String × String)) (vps : List (String × ℚ))
    (h0 : parseFloat t0 = some v0) (hv : tokVals tps vps = true)
    (hz : ("/", (0 : ℚ)) ∈ vps) :
    evaluateExpression (tokensOf t0 tps) = .error .divideByZero := by
  rw [eval_eq_spec t0 v0 tps vps h0 hv]
  simp [specPrecedenceEval, collapse_div_zero vps v0 (tokVals_ops hv) hz,
    Bind.bind, Except.bind]

/-- Witness for C4: `5 / 0` and `8 * 2 / 0 + 1` both fail with
`DivideByZero`. -/
theorem divide_by_zero_anywhere_witness :
    evaluateExpression (tokensOf "5" [("/", "0")]) = .error .divideByZero ∧
    evaluateExpression (tokensOf "8" [("*", "2"), ("/", "0"), ("+", "1")]) =
      .error .divideByZero :=
  ⟨divide_by_zero_anywhere "5" 5 [("/", "0")] [("/", (0 : ℚ))]
      (by decide) (by decide) (by decide),
    divide_by_zero_anywhere "8" 8 [("*", "2"), ("/", "0"), ("+", "1")]
      [("*", (2 : ℚ)), ("/", 0), ("+", 1)] (by decide) (by decide) (by decide)⟩

/-- C9: a sequence consisting of exactly one number token (and hence zero
operator tokens) evaluates to that number unchanged. -/
theorem single_number_identity (t : String) (v : ℚ) (h : parseFloat t = some v) :
    evaluateExpression [t] = .ok v := by
  have heq := eval_eq_spec t v [] [] h rfl
  simpa [tokensOf, specPrecedenceEval, collapseHighSpec, foldLowSpec,
    Bind.bind, Except.bind] using heq

/-- Witness for C9: the sequence `["7"]` evaluates to `7`. -/
theorem single_number_identity_witness : evaluateExpression ["7"] = .ok 7 :=
  single_number_identity "7" 7 (by decide)

/-- C1 counterexample: a sequence of two number tokens and zero operator
tokens does NOT fail with `InvalidExpression`; the evaluator returns the
first number (`["1", "2"]` evaluates to `1`). -/
theorem invalid_expression_guard_counterexample :
    evaluateExpression ["1", "2"] = .ok 1 ∧
    evaluateExpression ["1", "2"] ≠ .error .invalidExpression := by
  constructor
  · decide
  · decide

/-- C1 amended: outside the single-number special case, evaluation fails with
`InvalidExpression` if the number-token count is at most the operator-token
count (`numbers.length <= operators.length`, line 154); in particular a
sequence of two number tokens and zero operators does NOT fail — it evaluates
to the first number (the extra number is ignored by the final fold). -/
theorem invalid_expression_guard :
    (∀ (toks : List String) (nums : List ℚ) (ops : List String),
      parseTokens toks = .ok (nums, ops) →
      ¬(nums.length = 1 ∧ ops.length = 0) →
      nums.length ≤ ops.length →
      evaluateExpression toks = .error .invalidExpression) ∧
    (∀ (t u : String) (v w : ℚ), parseFloat t = some v → parseFloat u = some w →
      evaluateExpression [t, u] = .ok v) := by
  constructor
  · intro toks nums ops hp h1 h2
    simp only [evaluateExpression, hp, Bind.bind, Except.bind]
    rw [if_neg h1, if_pos h2]
  · intro t u v w hv hw
    have hparse : parseTokens [t, u] = .ok ([v, w], []) := by
      simp [parseTokens, isOperator_of_parseFloat hv, isOperator_of_parseFloat hw,
        hv, hw, Bind.bind, Except.bind]
    simp [evaluateExpression, hparse, Bind.bind, Except.bind, highPass,
      foldLow, foldLowGo]

/-- Witness for the amended C1: `["+"]` (zero numbers, one operator) fails
with `InvalidExpression`, while `["1", "2"]` evaluates to `1`. -/
theorem invalid_expression_guard_witness :
    evaluateExpression ["+"] = .error .invalidExpression ∧
    evaluateExpression ["1", "2"] = .ok 1 :=
  ⟨invalid_expression_guard.1 ["+"] [] ["+"] (by decide) (by decide) (by decide),
    invalid_expression_guard.2 "1" "2" 1 2 (by decide) (by decide)⟩

/-! ## The calculator state machine (src/script.js lines 1-128) -/

/-- JS falsiness of a `parseFloat` result: `NaN` (`none`) or zero
(`!parseFloat(...)` at line 108). -/
def jsFalsyNum : Option ℚ → Bool
  | none => true
  | some q => q = 0

/-- Decimal digit characters of a natural number, most significant first
(empty for zero). -/
def natDigits : ℕ → List Char
  | 0 => []
  | n + 1 => natDigits ((n + 1) / 10) ++ [Char.ofNat (48 + (n + 1) % 10)]
decreasing_by exact Nat.div_lt_self (Nat.succ_pos n) (by decide)

/-- Decimal string of a natural number. -/
def natString (n : ℕ) : String :=
  if n = 0 then "0" else ⟨natDigits n⟩

/-- Abstract model of `formatResult` (lines 10-18): an exact rendering of the
rational result.  The IEEE-754 specifics of `Number.prototype.toString` and
`toExponential` (the subject of the formatter claim) are not representable
over `ℚ` and are not modelled; every state-machine claim below relies only on
this string being nonempty and distinct from the four operator tokens. -/
def formatResult (q : ℚ) : String :=
  (if q.num < 0 then "-" else "") ++ natString q.num.natAbs ++
    (if q.den = 1 then "" else "/" ++ natString q.den)

/-- The history update of `calculate` (lines 114-115): push the record, then
drop the oldest entry if the length exceeds 10. -/
def pushBounded (h : List (String × String)) (r : String × String) :
    List (String × String) :=
  let h' := h ++ [r]
  if h'.length > 10 then h'.tail else h'

/-- The mutable calculator state (lines 2-7): the input buffer, the committed
token sequence, the bounded history of (expression text, result text) records,
and the result-displayed flag. -/
structure CalcState where
  currentInput : String
  expression : List String
  history : List (String × String)
  isResultDisplayed : Bool
deriving DecidableEq, Repr

/-- The initial state (lines 2-7). -/
def initState : CalcState := ⟨"", [], [], false⟩

/-- `appendNumber` (lines 21-31): reset after a displayed result, reject a
duplicate decimal point, otherwise append the character to the buffer. -/
def appendNumber (digit : String) (s : CalcState) : CalcState :=
  let s1 := if s.isResultDisplayed then
      { s with currentInput := "", expression := [], isResultDisplayed := false }
    else s
  if digit = "." ∧ '.' ∈ s1.currentInput.data then s1
  else { s1 with currentInput := s1.currentInput ++ digit }

/-- Model of JS `String.prototype.trim` (character-level): strip whitespace
from both ends. -/
def strTrim (s : String) : String :=
  ⟨((s.data.dropWhile Char.isWhitespace).reverse.dropWhile Char.isWhitespace).reverse⟩

/-- Model of JS `slice(0, -1)` (character-level): drop the last character. -/
def strDropLast (s : String) : String := ⟨s.data.dropLast⟩

/-- `appendOperator` (lines 34-48): after a displayed result, seed the
expression with the result text and clear the buffer; reject when the buffer
is empty unless the operator is the padded minus; otherwise commit the buffer
(when nonempty) and push the trimmed operator. -/
def appendOperator (op : String) (s : CalcState) : CalcState :=
  let s1 := if s.isResultDisplayed then
      { s with
        expression := [s.currentInput]
        currentInput := ""
        isResultDisplayed := false }
    else s
  if s1.currentInput = "" && op ≠ " - " then s1
  else
    let s2 := if s1.currentInput ≠ "" then
        { s1 with expression := s1.expression ++ [s1.currentInput], currentInput := "" }
      else s1
    { s2 with expression := s2.expression ++ [strTrim op] }

/-- `backspace` (lines 51-65): reset after a displayed result; else drop the
buffer's last character; else pop the last committed token and move the new
last token (JS `expression.pop() || ''`) into the buffer. -/
def backspace (s : CalcState) : CalcState :=
  if s.isResultDisplayed then
    { s with currentInput := "", expression := [], isResultDisplayed := false }
  else if s.currentInput ≠ "" then
    { s with currentInput := strDropLast s.currentInput }
  else if s.expression ≠ [] then
    let e1 := s.expression.dropLast
    { s with currentInput := e1.getLast?.getD "", expression := e1.dropLast }
  else s

/-- `clearDisplay` (lines 68-74): empty the buffer and expression, clear the
flag; the history is preserved. -/
def clearDisplay (s : CalcState) : CalcState :=
  { s with currentInput := "", expression := [], isResultDisplayed := false }

/-- `clearAll` (lines 77-84): reset everything, history included. -/
def clearAll (_ : CalcState) : CalcState := ⟨"", [], [], false⟩

/-- `calculate` (lines 103-128): no-op while a result is displayed; push the
pending buffer; silently return on an empty expression or on a single token
whose parse is falsy (NOTE: the push is not rolled back); otherwise evaluate,
committing either the formatted result (recorded into the bounded history) or
the error message. -/
def calculate (s : CalcState) : CalcState :=
  if s.isResultDisplayed then s
  else
    let s1 := if s.currentInput ≠ "" then
        { s with expression := s.expression ++ [s.currentInput] }
      else s
    if s1.expression.length < 1 ||
        (s1.expression.length == 1 && jsFalsyNum (parseFloat (s1.expression.headD ""))) then
      s1
    else
      match evaluateExpression s1.expression with
      | .ok r =>
        let fr := formatResult r
        { currentInput := fr
          expression := []
          history := pushBounded s1.history (String.join s1.expression, fr)
          isResultDisplayed := true }
      | .error e =>
        { s1 with
          currentInput := errorMessage e
          expression := []
          isResultDisplayed := true }

/-- The digit/point arguments the keyboard adapter passes to `appendNumber`
(lines 204-209). -/
def isDigitOrDot (d : String) : Bool :=
  ["0", "1", "2", "3", "4", "5", "6", "7", "8", "9", "."].contains d

/-- The padded operator arguments the keyboard adapter passes to
`appendOperator` (line 207: `` ` ${key} ` ``). -/
def padOps : List String := [" + ", " - ", " * ", " / "]

/-- States reachable from the initial state through the adapter's calls. -/
inductive Reachable : CalcState → Prop where
  | init : Reachable initState
  | digit {s d} : Reachable s → isDigitOrDot d = true → Reachable (appendNumber d s)
  | operator {s o} : Reachable s → o ∈ padOps → Reachable (appendOperator o s)
  | back {s} : Reachable s → Reachable (backspace s)
  | clear {s} : Reachable s → Reachable (clearDisplay s)
  | clearEverything {s} : Reachable s → Reachable (clearAll s)
  | compute {s} : Reachable s → Reachable (calculate s)

/-! ## Claim theorems: the compute orchestrator -/

/-- C10: with no displayed result, an empty token sequence, and a nonempty
buffer parsing to zero, `calculate` commits no result, adds no history record,
and leaves the flag cleared; the only effect is the (unrolled-back) push of
the buffer onto the expression. -/
theorem compute_skips_zero_single (s : CalcState)
    (hflag : s.isResultDisplayed = false) (hexp : s.expression = [])
    (hbuf : s.currentInput ≠ "") (hparse : parseFloat s.currentInput = some 0) :
    calculate s = { s with expression := [s.currentInput] } ∧
    (calculate s).history = s.history ∧
    (calculate s).isResultDisplayed = false ∧
    (calculate s).currentInput = s.currentInput := by
  have hc : calculate s = { s with expression := [s.currentInput] } := by
    simp [calculate, hflag, hbuf, hexp, hparse, jsFalsyNum]
  exact ⟨hc, by rw [hc], by rw [hc]; exact hflag, by rw [hc]⟩

/-- Witness for C10: typing `0` and pressing compute changes neither the
buffer, nor the history, nor the flag. -/
theorem compute_skips_zero_single_witness :
    calculate ⟨"0", [], [], false⟩ = ⟨"0", ["0"], [], false⟩ ∧
    (calculate ⟨"0", [], [], false⟩).history = [] ∧
    (calculate ⟨"0", [], [], false⟩).isResultDisplayed = false := by
  have h := compute_skips_zero_single ⟨"0", [], [], false⟩ rfl rfl
    (by decide) (by decide)
  exact ⟨h.1, h.2.1, h.2.2.1⟩

/-- C7: when evaluation fails, `calculate` commits the failure as a result:
the buffer becomes the error message, the expression empties, the flag is set,
and the history is unchanged (no record is added). -/
theorem compute_failure_committed (s : CalcState) (expr : List String)
    (e : EvalError) (hflag : s.isResultDisplayed = false)
    (hexpr : expr = if s.currentInput ≠ "" then s.expression ++ [s.currentInput]
      else s.expression)
    (hne : expr ≠ [])
    (hsingle : expr.length = 1 → jsFalsyNum (parseFloat (expr.headD "")) = false)
    (heval : evaluateExpression expr = .error e) :
    calculate s = ⟨errorMessage e, [], s.history, true⟩ := by
  by_cases hbuf : s.currentInput = ""
  · simp [hbuf] at hexpr
    subst hexpr
    simp [calculate, hflag, hbuf, heval]
    intro h
    rcases h with he | ⟨h1, h2⟩
    · exact absurd he hne
    · have := hsingle h1
      simp at this
      rw [this] at h2
      cases h2
  · simp [hbuf] at hexpr
    subst hexpr
    simp [calculate, hflag, hbuf, heval]
    intro he
    have h1 : (s.expression ++ [s.currentInput]).length = 1 := by simp [he]
    have := hsingle h1
    rw [he] at this
    simpa [he] using this

/-- Witness for C7: computing the sequence `3 +` (buffer empty) fails with
`InvalidExpression`, and the message is committed with history untouched. -/
theorem compute_failure_committed_witness :
    calculate ⟨"", ["3", "+"], [], false⟩ = ⟨"Invalid expression", [], [], true⟩ :=
  compute_failure_committed ⟨"", ["3", "+"], [], false⟩ ["3", "+"]
    .invalidExpression rfl (by decide) (by decide) (by decide) (by decide)

/-- C8: with no displayed result, an empty buffer, and at least two committed
tokens, `backspace` removes the last token and moves the new last token back
into the buffer. -/
theorem backspace_reopens_last_number (s : CalcState) (front : List String)
    (n o : String) (hflag : s.isResultDisplayed = false)
    (hbuf : s.currentInput = "") (hexp : s.expression = front ++ [n, o]) :
    backspace s = { s with currentInput := n, expression := front } := by
  have h1 : s.expression.dropLast = front ++ [n] := by
    rw [hexp, show front ++ [n, o] = (front ++ [n]) ++ [o] by simp,
      List.dropLast_concat]
  have hne : s.expression ≠ [] := by
    rw [hexp]; simp
  simp [backspace, hflag, hbuf, hne, h1, List.getLast?_concat, List.dropLast_concat]

/-- Witness for C8: from committed tokens `["3", "+"]` and an empty buffer,
backspace re-opens `"3"` and leaves the token sequence empty. -/
theorem backspace_reopens_last_number_witness :
    backspace ⟨"", ["3", "+"], [], false⟩ = ⟨"3", [], [], false⟩ :=
  backspace_reopens_last_number ⟨"", ["3", "+"], [], false⟩ [] "3" "+" rfl rfl rfl

/-! ## Claim theorems: the bounded history -/

theorem appendNumber_history (d : String) (s : CalcState) :
    (appendNumber d s).history = s.history := by
  simp only [appendNumber]
  split <;> split <;> rfl

theorem appendOperator_history (op : String) (s : CalcState) :
    (appendOperator op s).history = s.history := by
  simp only [appendOperator]
  split <;> split <;> try rfl
  all_goals split <;> rfl

theorem backspace_history (s : CalcState) : (backspace s).history = s.history := by
  simp only [backspace]
  split
  · rfl
  · split
    · rfl
    · split <;> rfl

theorem clearDisplay_history (s : CalcState) :
    (clearDisplay s).history = s.history := rfl

theorem calculate_history (s : CalcState) :
    (calculate s).history = s.history ∨
      ∃ r, (calculate s).history = pushBounded s.history r := by
  simp only [calculate]
  repeat' split
  all_goals first
    | exact Or.inl rfl
    | exact Or.inr ⟨_, rfl⟩

theorem pushBounded_length_le (h : List (String × String)) (r : String × String)
    (hle : h.length ≤ 10) : (pushBounded h r).length ≤ 10 := by
  simp only [pushBounded]
  split <;>
    (simp only [List.length_tail, List.length_append, List.length_cons,
      List.length_nil] at *; omega)

/-- C6: every reachable state's history holds at most 10 records; a push onto
a full history evicts the oldest record first (`calculate`'s history update is
exactly `pushBounded`), and 11 successive pushes from an empty history leave
records 2 through 11 in insertion order. -/
theorem history_bounded_fifo :
    (∀ s, Reachable s → s.history.length ≤ 10) ∧
    (∀ s, (calculate s).history = s.history ∨
      ∃ r, (calculate s).history = pushBounded s.history r) ∧
    (∀ (h : List (String × String)) (r : String × String), h.length = 10 →
      pushBounded h r = h.tail ++ [r]) ∧
    (∀ r1 r2 r3 r4 r5 r6 r7 r8 r9 r10 r11 : String × String,
      List.foldl pushBounded []
          [r1, r2, r3, r4, r5, r6, r7, r8, r9, r10, r11] =
        [r2, r3, r4, r5, r6, r7, r8, r9, r10, r11]) := by
  refine ⟨?_, calculate_history, ?_, ?_⟩
  · intro s h
    induction h with
    | init => simp [initState]
    | digit hs hd ih => rw [appendNumber_history]; exact ih
    | operator hs ho ih => rw [appendOperator_history]; exact ih
    | back hs ih => rw [backspace_history]; exact ih
    | clear hs ih => rw [clearDisplay_history]; exact ih
    | clearEverything hs ih => simp [clearAll]
    | compute hs ih =>
      rcases calculate_history _ with hh | ⟨r, hh⟩
      · rw [hh]; exact ih
      · rw [hh]; exact pushBounded_length_le _ r ih
  · intro h r hlen
    cases h with
    | nil => cases hlen
    | cons p h' =>
      have hgt : ((p :: h') ++ [r]).length > 10 := by
        simp only [List.length_cons] at hlen
        simp only [List.length_append, List.length_cons, List.length_nil]
        omega
      simp only [pushBounded, if_pos hgt]
      simp
  · intro r1 r2 r3 r4 r5 r6 r7 r8 r9 r10 r11
    simp [pushBounded, List.foldl]

/-- Witness for C6: the initial history is within the bound, and the 11th push
onto a full history of pairs `("1","1") … ("10","10")` evicts the first. -/
theorem history_bounded_fifo_witness :
    initState.history.length ≤ 10 ∧
    pushBounded
        [("1", "1"), ("2", "2"), ("3", "3"), ("4", "4"), ("5", "5"), ("6", "6"),
          ("7", "7"), ("8", "8"), ("9", "9"), ("10", "10")] ("11", "11") =
      [("2", "2"), ("3", "3"), ("4", "4"), ("5", "5"), ("6", "6"), ("7", "7"),
        ("8", "8"), ("9", "9"), ("10", "10"), ("11", "11")] := by
  constructor
  · exact history_bounded_fifo.1 initState Reachable.init
  · rw [history_bounded_fifo.2.2.1 _ ("11", "11") (by decide)]
    rfl

/-! ## Claim theorems: the token-sequence alternation invariant -/

/-- The committed sequence does not start with an operator token. -/
def noLeadingOp : List String → Bool
  | [] => true
  | t :: _ => !isOperator t

/-- The committed sequence holds no two adjacent operator tokens. -/
def noAdjOps : List String → Bool
  | t :: u :: r => !(isOperator t && isOperator u) && noAdjOps (u :: r)
  | _ => true

/-- A number token typed from digit/point keys: nonempty, digits and points
only. -/
def CleanTok (t : String) : Prop :=
  t ≠ "" ∧ ∀ c ∈ t.data, c.isDigit = true ∨ c = '.'

/-- A nonempty non-operator token (a typed number, a formatted result, or an
error message). -/
def ResTok (t : String) : Prop := t ≠ "" ∧ isOperator t = false

/-- A buffer whose characters are digits or points (possibly empty). -/
def CleanBuf (b : String) : Prop := ∀ c ∈ b.data, c.isDigit = true ∨ c = '.'

/-- (committed number, operator) pair blocks as `appendOperator` pushes them. -/
inductive Pairs : List String → Prop where
  | nil : Pairs []
  | cons {n o r} : CleanTok n → isOperator o = true → Pairs r → Pairs (n :: o :: r)

/-- Shape of the committed token sequence while the unary-minus special case
is never exercised: empty, a single committed token, a typed number followed
by operator/number pair blocks, or a re-used result followed by pair blocks. -/
inductive GoodExpr : List String → Prop where
  | nil : GoodExpr []
  | single {t} : ResTok t → GoodExpr [t]
  | opSecond {t o r} : CleanTok t → isOperator o = true → Pairs r →
      GoodExpr (t :: o :: r)
  | numSecond {t n o r} : ResTok t → CleanTok n → isOperator o = true → Pairs r →
      GoodExpr (t :: n :: o :: r)

/-- The inductive invariant carried through restricted reachability. -/
def StateInv (s : CalcState) : Prop :=
  GoodExpr s.expression ∧
    (if s.isResultDisplayed then ResTok s.currentInput else CleanBuf s.currentInput)

theorem cleanTok_resTok {t : String} (h : CleanTok t) : ResTok t := by
  refine ⟨h.1, ?_⟩
  cases hop : isOperator t with
  | false => rfl
  | true =>
    exfalso
    have h4 : ((t = "+" ∨ t = "-") ∨ t = "*") ∨ t = "/" := by simpa [isOperator] using hop
    rcases h4 with ((rfl | rfl) | rfl) | rfl
    · exact absurd (h.2 '+' (by decide)) (by decide)
    · exact absurd (h.2 '-' (by decide)) (by decide)
    · exact absurd (h.2 '*' (by decide)) (by decide)
    · exact absurd (h.2 '/' (by decide)) (by decide)

theorem isOperator_eq_false_of_digit {s : String} {c : Char} (hc : c ∈ s.data)
    (hd : c.isDigit = true) : isOperator s = false := by
  cases hop : isOperator s with
  | false => rfl
  | true =>
    exfalso
    have h4 : ((s = "+" ∨ s = "-") ∨ s = "*") ∨ s = "/" := by simpa [isOperator] using hop
    rcases h4 with ((rfl | rfl) | rfl) | rfl <;>
      (rcases List.mem_singleton.mp hc with rfl; cases hd)

theorem natDigits_digits : ∀ n : ℕ, ∀ c ∈ natDigits n, c.isDigit = true := by
  intro n
  induction n using Nat.strong_induction_on with
  | _ n ih =>
    match n with
    | 0 =>
      intro c hc
      simp only [natDigits] at hc
      cases hc
    | m + 1 =>
      intro c hc
      simp only [natDigits] at hc
      rcases List.mem_append.mp hc with h | h
      · exact ih ((m + 1) / 10) (Nat.div_lt_self (Nat.succ_pos m) (by decide)) c h
      · rcases List.mem_singleton.mp h with rfl
        have hm : (m + 1) % 10 < 10 := Nat.mod_lt _ (by decide)
        have hall : ∀ r < 10, (Char.ofNat (48 + r)).isDigit = true := by decide
        exact hall _ hm

theorem natDigits_ne_nil (m : ℕ) : natDigits (m + 1) ≠ [] := by
  simp only [natDigits]
  simp

theorem natString_digit (n : ℕ) : ∃ c ∈ (natString n).data, c.isDigit = true := by
  by_cases h0 : n = 0
  · subst h0
    exact ⟨'0', by decide, by decide⟩
  · obtain ⟨m, rfl⟩ := Nat.exists_eq_succ_of_ne_zero h0
    obtain ⟨c, hc⟩ := List.exists_mem_of_ne_nil _ (natDigits_ne_nil m)
    refine ⟨c, ?_, natDigits_digits _ c hc⟩
    simpa [natString] using hc

theorem formatResult_resTok (q : ℚ) : ResTok (formatResult q) := by
  obtain ⟨c, hc, hd⟩ := natString_digit q.num.natAbs
  have hcf : c ∈ (formatResult q).data := by
    simp only [formatResult, String.data_append]
    exact List.mem_append_left _ (List.mem_append_right _ hc)
  refine ⟨fun h => ?_, isOperator_eq_false_of_digit hcf hd⟩
  rw [h] at hcf
  cases hcf

theorem errorMessage_resTok (e : EvalError) : ResTok (errorMessage e) := by
  cases e <;> exact ⟨by decide, by decide⟩

theorem pairs_append {r : List String} {n o : String} (hp : Pairs r)
    (hn : CleanTok n) (ho : isOperator o = true) : Pairs (r ++ [n, o]) := by
  induction hp with
  | nil => exact Pairs.cons hn ho Pairs.nil
  | cons hn' ho' _ ih => exact Pairs.cons hn' ho' ih

theorem pairs_last_two {r : List String} (hp : Pairs r) :
    r = [] ∨ ∃ r' n o, r = r' ++ [n, o] ∧ Pairs r' ∧ CleanTok n ∧
      isOperator o = true := by
  induction hp with
  | nil => exact Or.inl rfl
  | cons hn ho hp ih =>
    rename_i n o r'
    rcases ih with rfl | ⟨r'', n', o', rfl, hp'', hn', ho'⟩
    · exact Or.inr ⟨[], n, o, rfl, Pairs.nil, hn, ho⟩
    · exact Or.inr ⟨n :: o :: r'', n', o', rfl, Pairs.cons hn ho hp'', hn', ho'⟩

theorem noAdjOps_cons_pairs {r : List String} (hp : Pairs r) :
    ∀ x, noAdjOps (x :: r) = true := by
  induction hp with
  | nil => intro x; rfl
  | cons hn ho hp ih =>
    intro x
    simp only [noAdjOps, (cleanTok_resTok hn).2, Bool.and_false, Bool.false_and,
      Bool.and_true, Bool.not_false, Bool.true_and, ih _]

theorem goodExpr_noLeadingOp {e : List String} (h : GoodExpr e) :
    noLeadingOp e = true := by
  cases h with
  | nil => rfl
  | single ht => simp [noLeadingOp, ht.2]
  | opSecond ht ho hp => simp [noLeadingOp, (cleanTok_resTok ht).2]
  | numSecond ht hn ho hp => simp [noLeadingOp, ht.2]

theorem goodExpr_noAdjOps {e : List String} (h : GoodExpr e) :
    noAdjOps e = true := by
  cases h with
  | nil => rfl
  | single ht => rfl
  | opSecond ht ho hp =>
    simp only [noAdjOps, (cleanTok_resTok ht).2, Bool.false_and, Bool.not_false,
      Bool.true_and, noAdjOps_cons_pairs hp _]
  | numSecond ht hn ho hp =>
    simp only [noAdjOps, (cleanTok_resTok hn).2, ht.2, Bool.false_and,
      Bool.and_false, Bool.not_false, Bool.true_and, noAdjOps_cons_pairs hp _]

theorem digitOrDot_clean {d : String} (hd : isDigitOrDot d = true) :
    ∀ c ∈ d.data, c.isDigit = true ∨ c = '.' := by
  have h11 : d = "0" ∨ d = "1" ∨ d = "2" ∨ d = "3" ∨ d = "4" ∨ d = "5" ∨
      d = "6" ∨ d = "7" ∨ d = "8" ∨ d = "9" ∨ d = "." := by
    simpa [isDigitOrDot, List.contains_eq_any_beq] using hd
  rcases h11 with rfl | rfl | rfl | rfl | rfl | rfl | rfl | rfl | rfl | rfl | rfl <;>
    decide

theorem stateInv_init : StateInv initState :=
  ⟨GoodExpr.nil, fun c hc => by cases hc⟩

theorem stateInv_clearDisplay {s : CalcState} (_ : StateInv s) :
    StateInv (clearDisplay s) :=
  ⟨GoodExpr.nil, fun c hc => by cases hc⟩

theorem stateInv_clearAll {s : CalcState} (_ : StateInv s) :
    StateInv (clearAll s) :=
  ⟨GoodExpr.nil, fun c hc => by cases hc⟩

theorem stateInv_appendNumber {s : CalcState} {d : String} (h : StateInv s)
    (hd : isDigitOrDot d = true) : StateInv (appendNumber d s) := by
  obtain ⟨hexp, hbuf⟩ := h
  have hdc := digitOrDot_clean hd
  by_cases hflag : s.isResultDisplayed = true
  · have hres : appendNumber d s =
        { s with currentInput := "" ++ d, expression := [], isResultDisplayed := false } := by
      simp [appendNumber, hflag]
    rw [hres]
    refine ⟨GoodExpr.nil, ?_⟩
    intro c hc
    rw [show ("" ++ d : String).data = d.data from by simp [String.data_append]] at hc
    exact hdc c hc
  · have hflag' : s.isResultDisplayed = false := by
      cases hfl : s.isResultDisplayed
      · rfl
      · exact absurd hfl hflag
    rw [if_neg hflag] at hbuf
    by_cases hdot : d = "." ∧ '.' ∈ s.currentInput.data
    · have hres : appendNumber d s = s := by
        simp [appendNumber, hflag', hdot]
      rw [hres]
      exact ⟨hexp, by rw [if_neg hflag]; exact hbuf⟩
    · have hres : appendNumber d s = { s with currentInput := s.currentInput ++ d } := by
        simp [appendNumber, hflag', hdot]
      rw [hres]
      refine ⟨hexp, ?_⟩
      rw [show ({ s with currentInput := s.currentInput ++ d } :
        CalcState).isResultDisplayed = s.isResultDisplayed from rfl]
      rw [if_neg hflag]
      intro c hc
      rw [String.data_append] at hc
      rcases List.mem_append.mp hc with hc | hc
      · exact hbuf c hc
      · exact hdc c hc

theorem padOps_trim {op : String} (hop : op ∈ padOps) :
    isOperator (strTrim op) = true := by
  have h4 : op = " + " ∨ op = " - " ∨ op = " * " ∨ op = " / " := by
    simpa [padOps] using hop
  rcases h4 with rfl | rfl | rfl | rfl <;> decide

theorem goodExpr_push_pair {e : List String} {b o : String} (he : GoodExpr e)
    (hb : CleanTok b) (ho : isOperator o = true) :
    GoodExpr ((e ++ [b]) ++ [o]) := by
  rw [List.append_assoc]
  cases he with
  | nil => exact GoodExpr.opSecond hb ho Pairs.nil
  | single ht => exact GoodExpr.numSecond ht hb ho Pairs.nil
  | opSecond ht hoo hp =>
    rw [List.cons_append, List.cons_append]
    exact GoodExpr.opSecond ht hoo (pairs_append hp hb ho)
  | numSecond ht hn hoo hp =>
    rw [List.cons_append, List.cons_append, List.cons_append]
    exact GoodExpr.numSecond ht hn hoo (pairs_append hp hb ho)

theorem stateInv_appendOperator {s : CalcState} {op : String} (h : StateInv s)
    (hop : op ∈ padOps)
    (hmin : op = " - " → s.isResultDisplayed = false ∧ s.currentInput ≠ "") :
    StateInv (appendOperator op s) := by
  obtain ⟨hexp, hbuf⟩ := h
  by_cases hflag : s.isResultDisplayed = true
  · have hopne : op ≠ " - " := fun he => by
      rw [(hmin he).1] at hflag; cases hflag
    rw [if_pos hflag] at hbuf
    have hres : appendOperator op s =
        { s with
          expression := [s.currentInput]
          currentInput := ""
          isResultDisplayed := false } := by
      simp [appendOperator, hflag, hopne]
    rw [hres]
    exact ⟨GoodExpr.single hbuf, fun c hc => by cases hc⟩
  · have hflag' : s.isResultDisplayed = false := by
      cases hfl : s.isResultDisplayed
      · rfl
      · exact absurd hfl hflag
    rw [if_neg hflag] at hbuf
    by_cases hbe : s.currentInput = ""
    · have hopne : op ≠ " - " := fun he => absurd hbe (hmin he).2
      have hres : appendOperator op s = s := by
        simp [appendOperator, hflag', hbe, hopne]
      rw [hres]
      exact ⟨hexp, by rw [if_neg hflag]; exact hbuf⟩
    · have hres : appendOperator op s =
          { s with
            expression := (s.expression ++ [s.currentInput]) ++ [strTrim op]
            currentInput := "" } := by
        simp [appendOperator, hflag', hbe]
      rw [hres]
      refine ⟨goodExpr_push_pair hexp ⟨hbe, hbuf⟩ (padOps_trim hop), ?_⟩
      rw [show ({ s with
        expression := (s.expression ++ [s.currentInput]) ++ [strTrim op]
        currentInput := "" } : CalcState).isResultDisplayed = s.isResultDisplayed from rfl]
      rw [if_neg hflag]
      intro c hc
      cases hc

theorem goodExpr_pop_two {e : List String} (he : GoodExpr e) :
    GoodExpr e.dropLast.dropLast ∧ CleanBuf (e.dropLast.getLast?.getD "") := by
  cases he with
  | nil => exact ⟨GoodExpr.nil, fun c hc => by cases hc⟩
  | single ht => exact ⟨GoodExpr.nil, fun c hc => by cases hc⟩
  | opSecond ht ho hp =>
    rename_i t o r
    rcases pairs_last_two hp with rfl | ⟨r', n', o', rfl, hp', hn', ho'⟩
    · exact ⟨GoodExpr.nil, ht.2⟩
    · have h1 : (t :: o :: (r' ++ [n', o'])) = ((t :: o :: r') ++ [n']) ++ [o'] := by
        simp
      rw [h1, List.dropLast_concat, List.getLast?_concat, List.dropLast_concat]
      exact ⟨GoodExpr.opSecond ht ho hp', hn'.2⟩
  | numSecond ht hn ho hp =>
    rename_i t n o r
    rcases pairs_last_two hp with rfl | ⟨r', n', o', rfl, hp', hn', ho'⟩
    · have h1 : ([t, n, o] : List String) = ([t] ++ [n]) ++ [o] := by simp
      rw [h1, List.dropLast_concat, List.getLast?_concat, List.dropLast_concat]
      exact ⟨GoodExpr.single ht, hn.2⟩
    · have h1 : (t :: n :: o :: (r' ++ [n', o'])) =
          ((t :: n :: o :: r') ++ [n']) ++ [o'] := by simp
      rw [h1, List.dropLast_concat, List.getLast?_concat, List.dropLast_concat]
      exact ⟨GoodExpr.numSecond ht hn ho hp', hn'.2⟩

theorem stateInv_backspace {s : CalcState} (h : StateInv s) :
    StateInv (backspace s) := by
  obtain ⟨hexp, hbuf⟩ := h
  by_cases hflag : s.isResultDisplayed = true
  · have hres : backspace s =
        { s with currentInput := "", expression := [], isResultDisplayed := false } := by
      simp [backspace, hflag]
    rw [hres]
    exact ⟨GoodExpr.nil, fun c hc => by cases hc⟩
  · have hflag' : s.isResultDisplayed = false := by
      cases hfl : s.isResultDisplayed
      · rfl
      · exact absurd hfl hflag
    rw [if_neg hflag] at hbuf
    by_cases hbe : s.currentInput = ""
    · by_cases hee : s.expression = []
      · have hres : backspace s = s := by
          simp [backspace, hflag', hbe, hee]
        rw [hres]
        exact ⟨hexp, by rw [if_neg hflag]; exact hbuf⟩
      · have hres : backspace s =
            { s with
              currentInput := s.expression.dropLast.getLast?.getD ""
              expression := s.expression.dropLast.dropLast } := by
          simp [backspace, hflag', hbe, hee]
        rw [hres]
        obtain ⟨hg, hb⟩ := goodExpr_pop_two hexp
        refine ⟨hg, ?_⟩
        rw [show ({ s with
          currentInput := s.expression.dropLast.getLast?.getD ""
          expression := s.expression.dropLast.dropLast } :
          CalcState).isResultDisplayed = s.isResultDisplayed from rfl]
        rw [if_neg hflag]
        exact hb
    · have hres : backspace s = { s with currentInput := strDropLast s.currentInput } := by
        simp [backspace, hflag', hbe]
      rw [hres]
      refine ⟨hexp, ?_⟩
      rw [show ({ s with currentInput := strDropLast s.currentInput } :
        CalcState).isResultDisplayed = s.isResultDisplayed from rfl]
      rw [if_neg hflag]
      intro c hc
      exact hbuf c (List.dropLast_subset _ hc)

theorem stateInv_calculate {s : CalcState} (h : StateInv s) :
    StateInv (calculate s) := by
  obtain ⟨hexp, hbuf⟩ := h
  by_cases hflag : s.isResultDisplayed = true
  · rw [show calculate s = s from by simp [calculate, hflag]]
    exact ⟨hexp, hbuf⟩
  · have hflag' : s.isResultDisplayed = false := by
      cases hfl : s.isResultDisplayed
      · rfl
      · exact absurd hfl hflag
    rw [if_neg hflag] at hbuf
    unfold calculate
    rw [if_neg hflag]
    by_cases hbe : s.currentInput = ""
    · rw [if_neg (show ¬s.currentInput ≠ "" from fun hk => hk hbe)]
      dsimp only
      by_cases hskip : (s.expression.length < 1 ||
          (s.expression.length == 1 && jsFalsyNum (parseFloat (s.expression.headD "")))) = true
      · rw [if_pos hskip]
        exact ⟨hexp, by rw [if_neg hflag]; exact hbuf⟩
      · rw [if_neg hskip]
        cases heval : evaluateExpression s.expression with
        | ok r => exact ⟨GoodExpr.nil, formatResult_resTok r⟩
        | error e => exact ⟨GoodExpr.nil, errorMessage_resTok e⟩
    · rw [if_pos hbe]
      dsimp only
      by_cases hskip : ((s.expression ++ [s.currentInput]).length < 1 ||
          ((s.expression ++ [s.currentInput]).length == 1 &&
            jsFalsyNum (parseFloat ((s.expression ++ [s.currentInput]).headD "")))) = true
      · rw [if_pos hskip]
        have hee : s.expression = [] := by
          rcases Bool.or_eq_true_iff.mp hskip with h1 | h2
          · have := of_decide_eq_true h1
            simp at this
          · have hlen := (Bool.and_eq_true_iff.mp h2).1
            have h1 : (s.expression ++ [s.currentInput]).length = 1 := by
              simpa using hlen
            simp at h1
            exact h1
        refine ⟨?_, ?_⟩
        · show GoodExpr (s.expression ++ [s.currentInput])
          rw [hee]
          exact GoodExpr.single (cleanTok_resTok ⟨hbe, hbuf⟩)
        · rw [show ({ s with expression := s.expression ++ [s.currentInput] } :
            CalcState).isResultDisplayed = s.isResultDisplayed from rfl]
          rw [if_neg hflag]
          exact hbuf
      · rw [if_neg hskip]
        cases heval : evaluateExpression (s.expression ++ [s.currentInput]) with
        | ok r => exact ⟨GoodExpr.nil, formatResult_resTok r⟩
        | error e => exact ⟨GoodExpr.nil, errorMessage_resTok e⟩

/-- Reachability restricted so that the unary-minus special case of
`appendOperator` is never exercised: the padded minus is only passed with the
result flag clear and a nonempty buffer, making it always a binary operator. -/
inductive ReachableNoUnaryMinus : CalcState → Prop where
  | init : ReachableNoUnaryMinus initState
  | digit {s d} : ReachableNoUnaryMinus s → isDigitOrDot d = true →
      ReachableNoUnaryMinus (appendNumber d s)
  | operator {s o} : ReachableNoUnaryMinus s → o ∈ padOps →
      (o = " - " → s.isResultDisplayed = false ∧ s.currentInput ≠ "") →
      ReachableNoUnaryMinus (appendOperator o s)
  | back {s} : ReachableNoUnaryMinus s → ReachableNoUnaryMinus (backspace s)
  | clear {s} : ReachableNoUnaryMinus s → ReachableNoUnaryMinus (clearDisplay s)
  | clearEverything {s} : ReachableNoUnaryMinus s → ReachableNoUnaryMinus (clearAll s)
  | compute {s} : ReachableNoUnaryMinus s → ReachableNoUnaryMinus (calculate s)

theorem stateInv_reachable {s : CalcState} (h : ReachableNoUnaryMinus s) :
    StateInv s := by
  induction h with
  | init => exact stateInv_init
  | digit _ hd ih => exact stateInv_appendNumber ih hd
  | operator _ hop hmin ih => exact stateInv_appendOperator ih hop hmin
  | back _ ih => exact stateInv_backspace ih
  | clear _ ih => exact stateInv_clearDisplay ih
  | clearEverything _ ih => exact stateInv_clearAll ih
  | compute _ ih => exact stateInv_calculate ih

/-- C2 counterexample: the keyboard's padded minus passes `appendOperator`'s
guard from the (reachable) initial state, and the committed sequence becomes
`["-"]` — it starts with an operator token, violating the invariant. -/
theorem token_alternation_counterexample :
    Reachable initState ∧ " - " ∈ padOps ∧
    (appendOperator " - " initState).expression = ["-"] ∧
    noLeadingOp (appendOperator " - " initState).expression = false ∧
    Reachable (appendOperator " - " initState) :=
  ⟨Reachable.init, by decide, by decide, by decide,
    Reachable.operator Reachable.init (by decide)⟩

/-- C2 amended: for every state reachable without exercising the padded-minus
special case (`appendOperator " - "` invoked only with the flag clear and a
nonempty buffer), the committed token sequence never starts with an operator
and never holds two adjacent operators.  Without that proviso the
special-cased leading minus injects a bare `-` that can start the sequence or
sit next to another operator. -/
theorem token_alternation_invariant (s : CalcState)
    (h : ReachableNoUnaryMinus s) :
    noLeadingOp s.expression = true ∧ noAdjOps s.expression = true :=
  ⟨goodExpr_noLeadingOp (stateInv_reachable h).1,
    goodExpr_noAdjOps (stateInv_reachable h).1⟩

/-- Witness for the amended C2: the state reached by typing `3` then `+`
satisfies both parts of the invariant. -/
theorem token_alternation_invariant_witness :
    noLeadingOp (appendOperator " + " (appendNumber "3" initState)).expression = true ∧
    noAdjOps (appendOperator " + " (appendNumber "3" initState)).expression = true :=
  token_alternation_invariant _
    (ReachableNoUnaryMinus.operator
      (ReachableNoUnaryMinus.digit ReachableNoUnaryMinus.init (by decide))
      (by decide) (fun hm => absurd hm (by decide)))

end CalculatorDen
